import Mathlib

/-!
# Verification of `TryForEachConcurrent` (futures-util, try_for_each_concurrent.rs)

A shallow embedding of the `TryForEachConcurrent` combinator from
`src/futures-util/src/try_stream/try_for_each_concurrent.rs`.

The combinator holds:
  * `stream : Option<St>` — modelled by a `Bool` recording whether the stream
    is still present (`true` for `Some`, `false` for `None`); the stream
    itself is an external collaborator whose poll results are supplied by a
    schedule;
  * `futures : FuturesUnordered<Fut>` — modelled by its length (`Nat`).
    `FuturesUnordered` is an external collaborator (its source is not part of
    this crate's file); we embed exactly the contract the combinator relies
    on. Modelled from the spec: the Completion Pool supports `push`, `len`,
    `is_empty`, and a non-blocking poll returning `Ready(None)` exactly when
    the pool is currently empty, and otherwise `Pending`,
    `Ready(Some(Ok(())))` or `Ready(Some(Err(e)))` as chosen by the external
    scheduler;
  * `limit : Option<NonZeroUsize>` — modelled by `Option Nat`, with
    `NonZeroUsize::new` mapping `0` to `none`.

One iteration of the `loop` inside `Future::poll` is the function `pass`;
a whole invocation of `poll` is `runPoll`, driven by a finite schedule of
(stream event, pool event) pairs, one per iteration (the schedule plays the
role of fuel: an empty schedule while the loop would continue yields `none`).
Each pass also emits a trace of events paired with the value of
`futures.len()` immediately after the event, so that properties about
intermediate states of a single `poll` invocation can be stated.
-/

namespace TryForEachConcurrent

/-- Result of `stream.try_poll_next(lw)` for one pull attempt:
`Pending`, `Ready(None)`, `Ready(Some(Ok(item)))` or `Ready(Some(Err(e)))`. -/
inductive StreamEv (ι ε : Type) : Type where
  | pending : StreamEv ι ε
  | done : StreamEv ι ε
  | item : ι → StreamEv ι ε
  | error : ε → StreamEv ι ε
deriving DecidableEq

/-- Result chosen by the scheduler for `futures.poll_next_unpin(lw)` when the
pool is non-empty: `Pending`, `Ready(Some(Ok(())))` or `Ready(Some(Err(e)))`.
(When the pool is empty the result is forced to `Ready(None)` by the
`FuturesUnordered` contract and the scheduler is not consulted.) -/
inductive PoolEv (ε : Type) : Type where
  | pending : PoolEv ε
  | completedOk : PoolEv ε
  | completedErr : ε → PoolEv ε
deriving DecidableEq

/-- The fields of `TryForEachConcurrent` that the `poll` loop reads and
writes: `stream : Option<St>` (as a presence flag), `futures.len()`, and
`limit : Option<NonZeroUsize>`. The closure `f` maps items to futures and
does not influence the control flow, and the identities of the in-flight
futures are irrelevant to the combinator (only the pool length and the
scheduled completion results are). -/
structure Orch : Type where
  stream : Bool
  futures : Nat
  limit : Option Nat
deriving DecidableEq

/-- `NonZeroUsize::new`: `0` has no non-zero representation. -/
def nonZeroUsizeNew (n : Nat) : Option Nat :=
  if n = 0 then none else some n

/-- `TryForEachConcurrent::new(stream, limit, f)`: stream present, empty
pool, and the limit run through `limit.and_then(NonZeroUsize::new)`
(so a caller-supplied limit of `0` is stored as `none`). -/
def Orch.new (limit : Option Nat) : Orch :=
  { stream := true
    futures := 0
    limit := limit.bind nonZeroUsizeNew }

/-- `FusedFuture::is_terminated`:
`self.stream.is_none() && self.futures.is_empty()`. -/
def Orch.isTerminated (o : Orch) : Bool :=
  !o.stream && o.futures == 0

/-- The guard before the pull attempt:
`self.limit().map(|limit| limit.get() > current_len).unwrap_or(true)`. -/
def launchGuard (o : Orch) : Bool :=
  (o.limit.map (fun l => decide (o.futures < l))).getD true

/-- Observable events of one `poll` invocation. Launch-step events:
`pulled x` (stream yielded `Ok(x)`), `pushed` (the new future entered the
pool), `streamDone` (`Ready(None)` observed, stream set to `None`),
`streamPending`, `streamErr e`. Harvest-step events: `harvestOk`,
`harvestEmpty` (`Ready(None)` from the pool), `harvestPending`,
`harvestErr e`. -/
inductive Ev (ι ε : Type) : Type where
  | pulled : ι → Ev ι ε
  | streamDone : Ev ι ε
  | streamPending : Ev ι ε
  | streamErr : ε → Ev ι ε
  | pushed : Ev ι ε
  | harvestOk : Ev ι ε
  | harvestEmpty : Ev ι ε
  | harvestPending : Ev ι ε
  | harvestErr : ε → Ev ι ε
deriving DecidableEq

/-- A trace of one pass: each event paired with `futures.len()` immediately
after the event took effect. -/
abbrev Trace (ι ε : Type) : Type := List (Ev ι ε × Nat)

/-- The value a `poll` invocation returns:
`Poll::Pending`, `Poll::Ready(Ok(()))` or `Poll::Ready(Err(e))`. -/
inductive PollRes (ε : Type) : Type where
  | pending : PollRes ε
  | ok : PollRes ε
  | err : ε → PollRes ε
deriving DecidableEq

/-- Outcome of one iteration of the `loop` in `poll`: either `poll` returns
(`ret`), or the iteration made progress and the loop continues (`cont`). -/
inductive PassRes (ι ε : Type) : Type where
  | ret : PollRes ε → Orch → Trace ι ε → PassRes ι ε
  | cont : Orch → Trace ι ε → PassRes ι ε
deriving DecidableEq

/-- The state held after the pass (for `ret`, the state at the return). -/
def PassRes.state {ι ε : Type} : PassRes ι ε → Orch
  | .ret _ o _ => o
  | .cont o _ => o

/-- The trace of the pass. -/
def PassRes.trace {ι ε : Type} : PassRes ι ε → Trace ι ε
  | .ret _ _ tr => tr
  | .cont _ tr => tr

/-- The result `poll` returns in this pass, if it returns. -/
def PassRes.result {ι ε : Type} : PassRes ι ε → Option (PollRes ε)
  | .ret r _ _ => some r
  | .cont _ _ => none

/-- The launch step of one pass (the pull attempt and the push), taken only
when the guard holds. Returns `Sum.inr` when `poll` returns
`Poll::Ready(Err(e))` right here (stream erroring), otherwise `Sum.inl` with
the updated state, the `made_progress_this_iter` flag after the launch step,
and the launch trace. When `stream` is `None` the pull result is forced to
`Poll::Ready(None)` (the `None => Poll::Ready(None)` arm). -/
def launchStep {ι ε : Type} (o : Orch) (se : StreamEv ι ε) :
    (Orch × Bool × Trace ι ε) ⊕ (ε × Trace ι ε) :=
  if launchGuard o then
    match (if o.stream then se else StreamEv.done) with
    | .item _x =>
        Sum.inl ({ o with futures := o.futures + 1 }, true,
          [(Ev.pulled _x, o.futures), (Ev.pushed, o.futures + 1)])
    | .done =>
        Sum.inl ({ o with stream := false }, false, [(Ev.streamDone, o.futures)])
    | .pending =>
        Sum.inl (o, false, [(Ev.streamPending, o.futures)])
    | .error e =>
        Sum.inr (e, [(Ev.streamErr e, 0)])
  else
    Sum.inl (o, false, [])

/-- The harvest step of one pass: `futures.poll_next_unpin(lw)`. An empty
pool is forced to report `Ready(None)`; a non-empty pool reports the
scheduled `PoolEv`. `prog` is the progress flag coming out of the launch
step; the pass ends with the `if !made_progress_this_iter { return Pending }`
check. -/
def harvestStep {ι ε : Type} (o : Orch) (prog : Bool) (pe : PoolEv ε) :
    PassRes ι ε :=
  if o.futures = 0 then
    if o.stream then
      if prog then PassRes.cont o [(Ev.harvestEmpty, 0)]
      else PassRes.ret PollRes.pending o [(Ev.harvestEmpty, 0)]
    else
      PassRes.ret PollRes.ok o [(Ev.harvestEmpty, 0)]
  else
    match pe with
    | .completedOk =>
        PassRes.cont { o with futures := o.futures - 1 }
          [(Ev.harvestOk, o.futures - 1)]
    | .pending =>
        if prog then PassRes.cont o [(Ev.harvestPending, o.futures)]
        else PassRes.ret PollRes.pending o [(Ev.harvestPending, o.futures)]
    | .completedErr e =>
        PassRes.ret (PollRes.err e) { stream := false, futures := 0, limit := o.limit }
          [(Ev.harvestErr e, 0)]

/-- One iteration of the `loop` in `Future::poll`: the launch step, then the
harvest step, then the progress check. On a stream error the pass returns
`Poll::Ready(Err(e))` with the stream set to `None` and the pool emptied,
skipping the harvest step. -/
def pass {ι ε : Type} (o : Orch) (se : StreamEv ι ε) (pe : PoolEv ε) :
    PassRes ι ε :=
  match launchStep o se with
  | Sum.inr (e, tr) =>
      PassRes.ret (PollRes.err e)
        { stream := false, futures := 0, limit := o.limit } tr
  | Sum.inl (o1, prog, tr1) =>
      match harvestStep o1 prog pe with
      | PassRes.ret r o2 tr2 => PassRes.ret r o2 (tr1 ++ tr2)
      | PassRes.cont o2 tr2 => PassRes.cont o2 (tr1 ++ tr2)

/-- One invocation of `Future::poll`, driven by a schedule supplying the
stream event and the pool event of each loop iteration. Returns the result
(`none` when the schedule ran out while the loop was still making progress),
the final state, and the per-pass traces. -/
def runPoll {ι ε : Type} :
    List (StreamEv ι ε × PoolEv ε) → Orch →
      Option (PollRes ε) × Orch × List (Trace ι ε)
  | [], o => (none, o, [])
  | (se, pe) :: rest, o =>
      match pass o se pe with
      | PassRes.ret r o2 tr => (some r, o2, [tr])
      | PassRes.cont o2 tr =>
          let out := runPoll rest o2
          (out.1, out.2.1, tr :: out.2.2)

/-- Does the event mark a push of a new future into the pool? -/
def Ev.isPushed {ι ε : Type} : Ev ι ε → Bool
  | .pushed => true
  | _ => false

/-- Is the event a harvest-step event? -/
def Ev.isHarvest {ι ε : Type} : Ev ι ε → Bool
  | .harvestOk => true
  | .harvestEmpty => true
  | .harvestPending => true
  | .harvestErr _ => true
  | _ => false

/-- Does the event set `made_progress_this_iter`? Exactly an item pulled
from the stream or a future completing with `Ok(())`. -/
def Ev.isProgress {ι ε : Type} : Ev ι ε → Bool
  | .pulled _ => true
  | .harvestOk => true
  | _ => false

/-- A trace records progress when some event in it sets the progress flag. -/
def progressedB {ι ε : Type} (tr : Trace ι ε) : Bool :=
  tr.any (fun p => p.1.isProgress)

end TryForEachConcurrent

namespace TryForEachConcurrent

/-! ## Pass-level lemmas -/

/-- A pass whose `result` is `some r` is literally a `ret`. -/
theorem PassRes.eq_ret {ι ε : Type} (p : PassRes ι ε) (r : PollRes ε)
    (h : p.result = some r) : p = PassRes.ret r p.state p.trace := by
  cases p <;> simp_all [PassRes.result, PassRes.state, PassRes.trace]

/-- The `limit` field is never written by the loop body. -/
theorem pass_state_limit {ι ε : Type} (o : Orch) (se : StreamEv ι ε) (pe : PoolEv ε) :
    (pass o se pe).state.limit = o.limit := by
  unfold pass launchStep harvestStep
  cases pe <;> by_cases hg : launchGuard o = true <;> cases hs : o.stream <;> cases se <;>
    simp only [hg, hs, if_true, if_false, ite_true, ite_false, Bool.false_eq_true] <;>
    (try split_ifs) <;> simp [PassRes.state]

/-- Ceiling invariant of a single pass: starting from at most `n` in-flight
futures with `limit = Some(n)`, every length snapshot in the trace stays at
most `n`, a pull happens only strictly below `n`, at most one push happens,
and the final length is at most `n`. -/
theorem pass_ceiling {ι ε : Type} (n : Nat) (o : Orch) (se : StreamEv ι ε) (pe : PoolEv ε)
    (hl : o.limit = some n) (hf : o.futures ≤ n) :
    (pass o se pe).state.futures ≤ n ∧
    (∀ p ∈ (pass o se pe).trace, p.2 ≤ n) ∧
    (∀ x L, (Ev.pulled x, L) ∈ (pass o se pe).trace → L < n) ∧
    (List.filter (fun p => Ev.isPushed p.1) (pass o se pe).trace).length ≤ 1 := by
  have hguard : launchGuard o = decide (o.futures < n) := by
    simp [launchGuard, hl]
  unfold pass launchStep harvestStep
  by_cases hg : o.futures < n <;> cases pe <;> cases hs : o.stream <;> cases se <;>
    simp only [hguard, hg, hs, decide_eq_true_eq, if_true, if_false,
      ite_true, ite_false, Bool.false_eq_true] <;>
    (try split_ifs) <;>
    simp_all [PassRes.state, PassRes.trace, Ev.isPushed, List.filter] <;>
    omega

/-- Once the stream is gone it stays gone across a pass. -/
theorem pass_stream_false_state {ι ε : Type} (o : Orch) (se : StreamEv ι ε) (pe : PoolEv ε)
    (hs : o.stream = false) : (pass o se pe).state.stream = false := by
  unfold pass launchStep harvestStep
  cases pe <;> by_cases hg : launchGuard o = true <;> cases se <;>
    simp only [hg, hs, if_true, if_false, ite_true, ite_false, Bool.false_eq_true] <;>
    (try split_ifs) <;> simp_all [PassRes.state]

/-- With the stream gone, no item is ever pulled during a pass. -/
theorem pass_stream_false_no_pull {ι ε : Type} (o : Orch) (se : StreamEv ι ε) (pe : PoolEv ε)
    (hs : o.stream = false) (x : ι) (L : Nat) :
    (Ev.pulled x, L) ∉ (pass o se pe).trace := by
  unfold pass launchStep harvestStep
  cases pe <;> by_cases hg : launchGuard o = true <;> cases se <;>
    simp only [hg, hs, if_true, if_false, ite_true, ite_false, Bool.false_eq_true] <;>
    (try split_ifs) <;> simp_all [PassRes.trace]

/-- With the stream gone, the scheduled stream event is never consulted:
`stream.try_poll_next` is not reachable (`None => Poll::Ready(None)`). -/
theorem pass_stream_false_irrel {ι ε : Type} (o : Orch) (se se2 : StreamEv ι ε)
    (pe : PoolEv ε) (hs : o.stream = false) : pass o se pe = pass o se2 pe := by
  unfold pass launchStep
  simp [hs]

/-- Every error return leaves the state with the stream dropped and the
pool emptied (the `mem::replace(self.futures(), FuturesUnordered::new())`
lines). -/
theorem pass_err_state {ι ε : Type} (o : Orch) (se : StreamEv ι ε) (pe : PoolEv ε)
    (el : ε) (h : (pass o se pe).result = some (PollRes.err el)) :
    (pass o se pe).state = { stream := false, futures := 0, limit := o.limit } := by
  revert h
  unfold pass launchStep harvestStep
  cases pe <;> by_cases hg : launchGuard o = true <;> cases hs : o.stream <;> cases se <;>
    simp only [hg, hs, if_true, if_false, ite_true, ite_false, Bool.false_eq_true] <;>
    (try split_ifs) <;> simp_all [PassRes.state, PassRes.result, PassRes.trace]

/-- From the terminal state (`stream = None`, empty pool) a pass returns
`Poll::Ready(Ok(()))`. -/
theorem pass_terminated_result {ι ε : Type} (o : Orch) (se : StreamEv ι ε) (pe : PoolEv ε)
    (hs : o.stream = false) (hf : o.futures = 0) :
    (pass o se pe).result = some PollRes.ok := by
  unfold pass launchStep harvestStep
  cases pe <;> by_cases hg : launchGuard o = true <;> cases se <;>
    simp only [hg, hs, hf, if_true, if_false, ite_true, ite_false, Bool.false_eq_true] <;>
    simp_all [PassRes.result]

/-- From the terminal state a pass leaves the state unchanged. -/
theorem pass_terminated_state {ι ε : Type} (o : Orch) (se : StreamEv ι ε) (pe : PoolEv ε)
    (hs : o.stream = false) (hf : o.futures = 0) :
    (pass o se pe).state = o := by
  obtain ⟨s, f, l⟩ := o
  simp only at hs hf
  subst hs hf
  unfold pass launchStep harvestStep
  cases pe <;> by_cases hg : launchGuard ⟨false, 0, l⟩ = true <;> cases se <;>
    simp only [hg, if_true, if_false, ite_true, ite_false, Bool.false_eq_true] <;>
    simp_all [PassRes.state]

end TryForEachConcurrent

namespace TryForEachConcurrent

/-- A pass that returns `Poll::Pending` recorded no progress: the final
`if !made_progress_this_iter { return Poll::Pending; }` check. -/
theorem pass_pending_no_progress {ι ε : Type} (o : Orch) (se : StreamEv ι ε)
    (pe : PoolEv ε) (h : (pass o se pe).result = some PollRes.pending) :
    progressedB (pass o se pe).trace = false := by
  revert h
  unfold pass launchStep harvestStep
  cases pe <;> by_cases hg : launchGuard o = true <;> cases hs : o.stream <;> cases se <;>
    simp only [hg, hs, if_true, if_false, ite_true, ite_false, Bool.false_eq_true] <;>
    (try split_ifs) <;>
    simp_all [PassRes.result, PassRes.trace, progressedB, Ev.isProgress]

/-- A pass after which the loop continues recorded progress. -/
theorem pass_cont_progress {ι ε : Type} (o : Orch) (se : StreamEv ι ε)
    (pe : PoolEv ε) (h : (pass o se pe).result = none) :
    progressedB (pass o se pe).trace = true := by
  revert h
  unfold pass launchStep harvestStep
  cases pe <;> by_cases hg : launchGuard o = true <;> cases hs : o.stream <;> cases se <;>
    simp only [hg, hs, if_true, if_false, ite_true, ite_false, Bool.false_eq_true] <;>
    (try split_ifs) <;>
    simp_all [PassRes.result, PassRes.trace, progressedB, Ev.isProgress]

/-- The launch step emits no harvest-step events. -/
theorem launchStep_trace_no_harvest {ι ε : Type} (o : Orch) (se : StreamEv ι ε) :
    (∀ o1 prog tr, launchStep o se = Sum.inl (o1, prog, tr) →
      ∀ p ∈ tr, Ev.isHarvest p.1 = false) ∧
    (∀ el tr, launchStep o se = Sum.inr (el, tr) →
      ∀ p ∈ tr, Ev.isHarvest p.1 = false) := by
  unfold launchStep
  by_cases hg : launchGuard o = true <;> cases hs : o.stream <;> cases se <;>
    simp_all [Ev.isHarvest] <;>
    (rintro a b (⟨rfl, rfl⟩ | ⟨rfl, rfl⟩)) <;> rfl

/-- The harvest step emits only harvest-step events. -/
theorem harvestStep_trace_harvest {ι ε : Type} (o : Orch) (prog : Bool) (pe : PoolEv ε) :
    ∀ p ∈ (harvestStep (ι := ι) o prog pe).trace, Ev.isHarvest p.1 = true := by
  unfold harvestStep
  cases pe <;> (try split_ifs) <;> simp_all [PassRes.trace, Ev.isHarvest]

/-- The trace of every pass is a block of launch-step events followed by a
block of harvest-step events: the launch step runs first. -/
theorem pass_trace_split {ι ε : Type} (o : Orch) (se : StreamEv ι ε) (pe : PoolEv ε) :
    ∃ ltr htr, (pass o se pe).trace = ltr ++ htr ∧
      (∀ p ∈ ltr, Ev.isHarvest p.1 = false) ∧
      (∀ p ∈ htr, Ev.isHarvest p.1 = true) := by
  cases hls : launchStep o se with
  | inr p =>
      obtain ⟨el, tr⟩ := p
      refine ⟨tr, [], ?_, (launchStep_trace_no_harvest o se).2 el tr hls, by simp⟩
      simp [pass, hls, PassRes.trace]
  | inl t =>
      obtain ⟨o1, prog, tr1⟩ := t
      refine ⟨tr1, (harvestStep (ι := ι) o1 prog pe).trace, ?_,
        (launchStep_trace_no_harvest o se).1 o1 prog tr1 hls,
        harvestStep_trace_harvest o1 prog pe⟩
      cases hhs : harvestStep (ι := ι) o1 prog pe <;>
        simp [pass, hls, hhs, PassRes.trace]

end TryForEachConcurrent

namespace TryForEachConcurrent

/-! ## runPoll-level lemmas -/

/-- The `limit` field is never written by `poll`. -/
theorem runPoll_limit {ι ε : Type} (sched : List (StreamEv ι ε × PoolEv ε)) (o : Orch) :
    (runPoll sched o).2.1.limit = o.limit := by
  induction sched generalizing o with
  | nil => simp [runPoll]
  | cons hd rest ih =>
      obtain ⟨se, pe⟩ := hd
      have h := pass_state_limit o se pe
      cases hp : pass o se pe with
      | ret r o2 tr =>
          rw [hp] at h
          simpa [runPoll, hp, PassRes.state] using h
      | cont o2 tr =>
          rw [hp] at h
          simp only [PassRes.state] at h
          simp [runPoll, hp, ih o2, h]

/-- Ceiling invariant over a whole `poll` invocation: all intermediate pool
lengths stay at most `n`, pulls happen only strictly below `n`, and each
pass pushes at most one future. -/
theorem runPoll_ceiling {ι ε : Type} (n : Nat) (sched : List (StreamEv ι ε × PoolEv ε))
    (o : Orch) (hl : o.limit = some n) (hf : o.futures ≤ n) :
    (runPoll sched o).2.1.futures ≤ n ∧
    ∀ tr ∈ (runPoll sched o).2.2,
      (∀ p ∈ tr, p.2 ≤ n) ∧
      (∀ x L, (Ev.pulled x, L) ∈ tr → L < n) ∧
      (List.filter (fun p => Ev.isPushed p.1) tr).length ≤ 1 := by
  induction sched generalizing o with
  | nil => simpa [runPoll] using hf
  | cons hd rest ih =>
      obtain ⟨se, pe⟩ := hd
      have hc := pass_ceiling n o se pe hl hf
      have hlim := pass_state_limit o se pe
      cases hp : pass o se pe with
      | ret r o2 tr =>
          rw [hp] at hc
          simp only [PassRes.state, PassRes.trace] at hc
          simp only [runPoll, hp]
          refine ⟨hc.1, ?_⟩
          intro tr2 htr2
          simp only [List.mem_singleton] at htr2
          subst htr2
          exact ⟨hc.2.1, hc.2.2.1, hc.2.2.2⟩
      | cont o2 tr =>
          rw [hp] at hc hlim
          simp only [PassRes.state, PassRes.trace] at hc hlim
          have ih2 := ih o2 (hlim.trans hl) hc.1
          simp only [runPoll, hp]
          refine ⟨ih2.1, ?_⟩
          intro tr2 htr2
          simp only [List.mem_cons] at htr2
          rcases htr2 with rfl | htr2
          · exact ⟨hc.2.1, hc.2.2.1, hc.2.2.2⟩
          · exact ih2.2 tr2 htr2

/-- Whenever `poll` returns `Poll::Ready(Err(e))`, the state it leaves
behind has the stream dropped and the pool empty. -/
theorem runPoll_err_state {ι ε : Type} (sched : List (StreamEv ι ε × PoolEv ε))
    (o : Orch) (el : ε) (h : (runPoll sched o).1 = some (PollRes.err el)) :
    (runPoll sched o).2.1.stream = false ∧ (runPoll sched o).2.1.futures = 0 := by
  induction sched generalizing o with
  | nil => simp [runPoll] at h
  | cons hd rest ih =>
      obtain ⟨se, pe⟩ := hd
      cases hp : pass o se pe with
      | ret r o2 tr =>
          rw [runPoll, hp] at h
          simp only at h
          injection h with h
          subst h
          have hres : (pass o se pe).result = some (PollRes.err el) := by
            rw [hp]; rfl
          have := pass_err_state o se pe el hres
          rw [hp] at this
          simp only [PassRes.state] at this
          simp only [runPoll, hp]
          rw [this]
          exact ⟨rfl, rfl⟩
      | cont o2 tr =>
          rw [runPoll, hp] at h
          simp only [runPoll, hp]
          exact ih o2 h

/-- With the stream already gone, it never comes back and no item is ever
pulled again, over a whole `poll` invocation. -/
theorem runPoll_stream_false {ι ε : Type} (sched : List (StreamEv ι ε × PoolEv ε))
    (o : Orch) (hs : o.stream = false) :
    (runPoll sched o).2.1.stream = false ∧
    ∀ tr ∈ (runPoll sched o).2.2, ∀ (x : ι) (L : Nat), (Ev.pulled x, L) ∉ tr := by
  induction sched generalizing o with
  | nil => simpa [runPoll] using hs
  | cons hd rest ih =>
      obtain ⟨se, pe⟩ := hd
      have hstate := pass_stream_false_state o se pe hs
      have hnp := pass_stream_false_no_pull o se pe hs
      cases hp : pass o se pe with
      | ret r o2 tr =>
          rw [hp] at hstate hnp
          simp only [PassRes.state, PassRes.trace] at hstate hnp
          simp only [runPoll, hp]
          refine ⟨hstate, ?_⟩
          intro tr2 htr2
          simp only [List.mem_singleton] at htr2
          subst htr2
          exact hnp
      | cont o2 tr =>
          rw [hp] at hstate hnp
          simp only [PassRes.state, PassRes.trace] at hstate hnp
          have ih2 := ih o2 hstate
          simp only [runPoll, hp]
          refine ⟨ih2.1, ?_⟩
          intro tr2 htr2
          simp only [List.mem_cons] at htr2
          rcases htr2 with rfl | htr2
          · exact hnp
          · exact ih2.2 tr2 htr2

/-- With the stream gone, `poll` does not depend on the scheduled stream
events at all: the adapter is never consulted again. -/
theorem runPoll_schedule_irrel {ι ε : Type} (sched sched2 : List (StreamEv ι ε × PoolEv ε))
    (o : Orch) (hs : o.stream = false)
    (hmap : sched.map Prod.snd = sched2.map Prod.snd) :
    runPoll sched o = runPoll sched2 o := by
  induction sched generalizing o sched2 with
  | nil =>
      cases sched2 with
      | nil => rfl
      | cons hd2 rest2 => simp at hmap
  | cons hd rest ih =>
      cases sched2 with
      | nil => simp at hmap
      | cons hd2 rest2 =>
          obtain ⟨se, pe⟩ := hd
          obtain ⟨se2, pe2⟩ := hd2
          simp only [List.map_cons, List.cons.injEq] at hmap
          obtain ⟨hpe, hrest⟩ := hmap
          subst hpe
          have hsame := pass_stream_false_irrel o se se2 pe hs
          simp only [runPoll]
          rw [hsame]
          cases hp : pass o se2 pe with
          | ret r o2 tr => simp [hp]
          | cont o2 tr =>
              have hstate := pass_stream_false_state o se2 pe hs
              rw [hp] at hstate
              simp only [PassRes.state] at hstate
              simp [hp, ih rest2 o2 hstate hrest]

/-- From the terminal state, a `poll` invocation returns `Ready(Ok(()))` in
its first pass and leaves the state unchanged. -/
theorem runPoll_terminated {ι ε : Type} (o : Orch) (se : StreamEv ι ε) (pe : PoolEv ε)
    (rest : List (StreamEv ι ε × PoolEv ε)) (hs : o.stream = false) (hf : o.futures = 0) :
    runPoll ((se, pe) :: rest) o = (some PollRes.ok, o, [(pass o se pe).trace]) := by
  have hret := PassRes.eq_ret (pass o se pe) PollRes.ok (pass_terminated_result o se pe hs hf)
  rw [pass_terminated_state o se pe hs hf] at hret
  rw [runPoll, hret]
  simp [PassRes.trace]

/-- When `poll` returns `Poll::Pending`, the final pass of the invocation
recorded no progress, and every earlier pass did. -/
theorem runPoll_pending_shape {ι ε : Type} (sched : List (StreamEv ι ε × PoolEv ε))
    (o : Orch) (h : (runPoll sched o).1 = some PollRes.pending) :
    ∃ trs0 tr, (runPoll sched o).2.2 = trs0 ++ [tr] ∧ progressedB tr = false ∧
      ∀ t ∈ trs0, progressedB t = true := by
  induction sched generalizing o with
  | nil => simp [runPoll] at h
  | cons hd rest ih =>
      obtain ⟨se, pe⟩ := hd
      cases hp : pass o se pe with
      | ret r o2 tr =>
          rw [runPoll, hp] at h
          simp only at h
          injection h with h
          subst h
          have hres : (pass o se pe).result = some PollRes.pending := by rw [hp]; rfl
          have hnp := pass_pending_no_progress o se pe hres
          rw [hp] at hnp
          simp only [PassRes.trace] at hnp
          exact ⟨[], tr, by simp [runPoll, hp], hnp, by simp⟩
      | cont o2 tr =>
          rw [runPoll, hp] at h
          obtain ⟨trs0, tr2, heq, hlast, hall⟩ := ih o2 h
          have hres : (pass o se pe).result = none := by rw [hp]; rfl
          have hprog := pass_cont_progress o se pe hres
          rw [hp] at hprog
          simp only [PassRes.trace] at hprog
          refine ⟨tr :: trs0, tr2, ?_, hlast, ?_⟩
          · simp only [runPoll, hp]
            simp [heq]
          · intro t ht
            simp only [List.mem_cons] at ht
            rcases ht with rfl | ht
            · exact hprog
            · exact hall t ht

end TryForEachConcurrent

namespace TryForEachConcurrent

/-- A freshly constructed combinator always passes the pull guard: the
stored limit is `none` or positive, and the pool starts empty. -/
theorem new_launchGuard (l : Option Nat) : launchGuard (Orch.new l) = true := by
  rcases l with _ | k
  · simp [Orch.new, launchGuard]
  · by_cases hk : k = 0
    · simp [Orch.new, launchGuard, nonZeroUsizeNew, hk, Option.bind]
    · simp [Orch.new, launchGuard, nonZeroUsizeNew, hk, Option.bind]
      omega

/-- A stream error observed in the launch step: `poll` returns
`Ready(Err(e))` in that same pass, with the stream dropped and the pool
emptied, and without reaching the harvest step (the trace holds the single
launch event). -/
theorem pass_stream_err {ι ε : Type} (o : Orch) (el : ε) (pe : PoolEv ε)
    (hs : o.stream = true) (hg : launchGuard o = true) :
    pass (ι := ι) o (StreamEv.error el) pe =
      PassRes.ret (PollRes.err el) { stream := false, futures := 0, limit := o.limit }
        [(Ev.streamErr el, 0)] := by
  simp [pass, launchStep, hs, hg]

/-- First pass on a fresh combinator whose stream immediately reports
exhausted: the stream is dropped, nothing is pushed, the empty pool reports
`Ready(None)`, and `poll` returns `Ready(Ok(()))`. -/
theorem pass_new_done {ι ε : Type} (l : Option Nat) (pe : PoolEv ε) :
    pass (ι := ι) (Orch.new l) StreamEv.done pe =
      PassRes.ret PollRes.ok { stream := false, futures := 0, limit := (Orch.new l).limit }
        [(Ev.streamDone, 0), (Ev.harvestEmpty, 0)] := by
  have hg := new_launchGuard l
  simp only [Orch.new] at hg
  simp [pass, launchStep, harvestStep, Orch.new, hg]

/-- Simultaneously ready item and completion: the launch step pulls and
pushes the fresh future before the harvest step removes the completed one:
the pool momentarily holds both. -/
theorem pass_item_then_harvest {ι ε : Type} (o : Orch) (x : ι) (hs : o.stream = true)
    (hg : launchGuard o = true) :
    pass (ε := ε) o (StreamEv.item x) PoolEv.completedOk =
      PassRes.cont o
        [(Ev.pulled x, o.futures), (Ev.pushed, o.futures + 1), (Ev.harvestOk, o.futures)] := by
  obtain ⟨s, f, li⟩ := o
  simp only at hs
  subst hs
  simp [pass, launchStep, harvestStep, hg]

/-- A pass whose only happening is the stream reporting exhausted (with
futures still pending): the stream is dropped, no progress is recorded, and
`poll` returns `Poll::Pending`. -/
theorem pass_done_not_progress {ι ε : Type} (o : Orch) (hs : o.stream = true)
    (hg : launchGuard o = true) (hf : 0 < o.futures) :
    pass (ι := ι) (ε := ε) o StreamEv.done PoolEv.pending =
      PassRes.ret PollRes.pending { o with stream := false }
        [(Ev.streamDone, o.futures), (Ev.harvestPending, o.futures)] := by
  have hf2 : o.futures ≠ 0 := by omega
  simp [pass, launchStep, harvestStep, hs, hg, hf2]

/-- With no limit configured, an available item is always pulled and its
future pushed: the guard never throttles. -/
theorem pass_item_unbounded {ι ε : Type} (o : Orch) (x : ι) (pe : PoolEv ε)
    (hl : o.limit = none) (hs : o.stream = true) :
    (Ev.pushed, o.futures + 1) ∈ (pass o (StreamEv.item x) pe).trace ∧
    (Ev.pulled x, o.futures) ∈ (pass o (StreamEv.item x) pe).trace := by
  have hg : launchGuard o = true := by simp [launchGuard, hl]
  unfold pass launchStep harvestStep
  cases pe <;>
    simp only [hg, hs, if_true, ite_true] <;>
    (try split_ifs) <;>
    simp_all [PassRes.state, PassRes.trace]

end TryForEachConcurrent

namespace TryForEachConcurrent

/-! ## Claim theorems -/

/-- C1: for every configured bounded ceiling n ≥ 1, at every point during
any invocation of `poll`, the pool length never exceeds n: every length
snapshot in every pass trace is at most n, an item is pulled only when the
length is strictly below n, each pass pushes at most one future, and the
final length is at most n. -/
theorem claim_ceiling_never_exceeded :
    ∀ (ι ε : Type) (n : Nat) (o : Orch) (sched : List (StreamEv ι ε × PoolEv ε)),
      1 ≤ n → o.limit = some n → o.futures ≤ n →
      (runPoll sched o).2.1.futures ≤ n ∧
      ∀ tr ∈ (runPoll sched o).2.2,
        (∀ p ∈ tr, p.2 ≤ n) ∧
        (∀ x L, (Ev.pulled x, L) ∈ tr → L < n) ∧
        (List.filter (fun p => Ev.isPushed p.1) tr).length ≤ 1 :=
  fun _ _ n o sched _ hl hf => runPoll_ceiling n sched o hl hf

/-- C1 witness: ceiling 2, one pass pulling an item while nothing completes. -/
theorem claim_ceiling_never_exceeded_witness :
    (1 ≤ 2) ∧ ((⟨true, 0, some 2⟩ : Orch).limit = some 2) ∧
    ((⟨true, 0, some 2⟩ : Orch).futures ≤ 2) ∧
    ((runPoll [((StreamEv.item 5 : StreamEv Nat Nat), PoolEv.pending)]
        (⟨true, 0, some 2⟩ : Orch)).2.1.futures ≤ 2 ∧
      ∀ tr ∈ (runPoll [((StreamEv.item 5 : StreamEv Nat Nat), PoolEv.pending)]
          (⟨true, 0, some 2⟩ : Orch)).2.2,
        (∀ p ∈ tr, p.2 ≤ 2) ∧
        (∀ x L, (Ev.pulled x, L) ∈ tr → L < 2) ∧
        (List.filter (fun p => Ev.isPushed p.1) tr).length ≤ 1) :=
  ⟨by decide, by decide, by decide,
    claim_ceiling_never_exceeded Nat Nat 2 ⟨true, 0, some 2⟩
      [((StreamEv.item 5 : StreamEv Nat Nat), PoolEv.pending)]
      (by decide) (by decide) (by decide)⟩

/-- C2: when the stream yields `Ready(Some(Err(e)))` during the launch step,
`poll` returns `Ready(Err(e))` in that same pass, with the stream set to
`None` and the pool emptied; the harvest step is skipped (the single trace
holds only the stream-error event) and the rest of the schedule is unused. -/
theorem claim_source_error_fail_fast :
    ∀ (ι ε : Type) (o : Orch) (el : ε) (pe : PoolEv ε)
      (rest : List (StreamEv ι ε × PoolEv ε)),
      o.stream = true → launchGuard o = true →
      runPoll ((StreamEv.error el, pe) :: rest) o =
        (some (PollRes.err el), { stream := false, futures := 0, limit := o.limit },
          [[(Ev.streamErr el, 0)]]) := by
  intro ι ε o el pe rest hs hg
  rw [runPoll, pass_stream_err o el pe hs hg]

/-- C2 witness: a stream with one pending future erroring on the next pull. -/
theorem claim_source_error_fail_fast_witness :
    ((⟨true, 1, none⟩ : Orch).stream = true) ∧
    (launchGuard (⟨true, 1, none⟩ : Orch) = true) ∧
    runPoll [((StreamEv.error 7 : StreamEv Nat Nat), PoolEv.completedOk)]
        (⟨true, 1, none⟩ : Orch) =
      (some (PollRes.err 7), { stream := false, futures := 0, limit := none },
        [[(Ev.streamErr 7, 0)]]) :=
  ⟨by decide, by decide,
    claim_source_error_fail_fast Nat Nat ⟨true, 1, none⟩ 7 PoolEv.completedOk []
      (by decide) (by decide)⟩

/-- C3: whenever `poll` returns an error — from the source pull or from a
harvested future — the state it leaves behind has the stream dropped and the
pool empty, so the terminal predicate holds immediately afterwards. -/
theorem claim_error_forces_terminal :
    ∀ (ι ε : Type) (sched : List (StreamEv ι ε × PoolEv ε)) (o : Orch) (el : ε),
      (runPoll sched o).1 = some (PollRes.err el) →
      (runPoll sched o).2.1.stream = false ∧ (runPoll sched o).2.1.futures = 0 ∧
      Orch.isTerminated (runPoll sched o).2.1 = true := by
  intro ι ε sched o el h
  obtain ⟨h1, h2⟩ := runPoll_err_state sched o el h
  exact ⟨h1, h2, by simp [Orch.isTerminated, h1, h2]⟩

/-- C3 witness: a future completing with an error while the stream pends. -/
theorem claim_error_forces_terminal_witness :
    ((runPoll [((StreamEv.pending : StreamEv Nat Nat), PoolEv.completedErr 3)]
        (⟨true, 2, none⟩ : Orch)).1 = some (PollRes.err 3)) ∧
    ((runPoll [((StreamEv.pending : StreamEv Nat Nat), PoolEv.completedErr 3)]
        (⟨true, 2, none⟩ : Orch)).2.1.stream = false ∧
      (runPoll [((StreamEv.pending : StreamEv Nat Nat), PoolEv.completedErr 3)]
        (⟨true, 2, none⟩ : Orch)).2.1.futures = 0 ∧
      Orch.isTerminated (runPoll [((StreamEv.pending : StreamEv Nat Nat), PoolEv.completedErr 3)]
        (⟨true, 2, none⟩ : Orch)).2.1 = true) :=
  ⟨by decide,
    claim_error_forces_terminal Nat Nat
      [((StreamEv.pending : StreamEv Nat Nat), PoolEv.completedErr 3)]
      ⟨true, 2, none⟩ 3 (by decide)⟩

/-- C4: `is_terminated` returns true exactly when the stream is `None` and
the pool is empty; a fresh combinator has the stream present and an empty
pool, hence is not terminated; and once terminated, every `poll` invocation
leaves the state unchanged, so the predicate holds forever. -/
theorem claim_is_terminated_characterization :
    (∀ o : Orch, Orch.isTerminated o = true ↔ (o.stream = false ∧ o.futures = 0)) ∧
    (∀ l : Option Nat, (Orch.new l).stream = true ∧ (Orch.new l).futures = 0 ∧
      Orch.isTerminated (Orch.new l) = false) ∧
    (∀ (ι ε : Type) (sched : List (StreamEv ι ε × PoolEv ε)) (o : Orch),
      Orch.isTerminated o = true →
      (runPoll sched o).2.1 = o ∧ Orch.isTerminated (runPoll sched o).2.1 = true) := by
  refine ⟨?_, ?_, ?_⟩
  · intro o
    obtain ⟨s, f, l⟩ := o
    cases s <;> simp [Orch.isTerminated]
  · intro l
    exact ⟨rfl, rfl, by simp [Orch.new, Orch.isTerminated]⟩
  · intro ι ε sched o h
    simp only [Orch.isTerminated, Bool.and_eq_true, Bool.not_eq_true',
      beq_iff_eq] at h
    obtain ⟨hs, hf⟩ := h
    have hst : (runPoll sched o).2.1 = o := by
      cases sched with
      | nil => rfl
      | cons hd rest =>
          obtain ⟨se, pe⟩ := hd
          rw [runPoll_terminated o se pe rest hs hf]
    refine ⟨hst, ?_⟩
    rw [hst]
    simp [Orch.isTerminated, hs, hf]

/-- C4 witness: the terminal state stays terminal across a `poll`. -/
theorem claim_is_terminated_characterization_witness :
    (Orch.isTerminated (⟨false, 0, some 4⟩ : Orch) = true) ∧
    ((runPoll [((StreamEv.item 8 : StreamEv Nat Nat), PoolEv.completedOk)]
        (⟨false, 0, some 4⟩ : Orch)).2.1 = ⟨false, 0, some 4⟩ ∧
      Orch.isTerminated (runPoll [((StreamEv.item 8 : StreamEv Nat Nat), PoolEv.completedOk)]
        (⟨false, 0, some 4⟩ : Orch)).2.1 = true) :=
  ⟨by decide,
    claim_is_terminated_characterization.2.2 Nat Nat
      [((StreamEv.item 8 : StreamEv Nat Nat), PoolEv.completedOk)]
      ⟨false, 0, some 4⟩ (by decide)⟩

/-- C5: a source that immediately reports exhausted: the first `poll`
invocation returns `Ready(Ok(()))`, and its single pass trace shows that no
future was ever created or pushed (only the stream-done and empty-pool
events). -/
theorem claim_empty_source_first_poll_ok :
    ∀ (ι ε : Type) (l : Option Nat) (pe : PoolEv ε)
      (rest : List (StreamEv ι ε × PoolEv ε)),
      runPoll ((StreamEv.done, pe) :: rest) (Orch.new l) =
        (some PollRes.ok,
          { stream := false, futures := 0, limit := (Orch.new l).limit },
          [[(Ev.streamDone, 0), (Ev.harvestEmpty, 0)]]) := by
  intro ι ε l pe rest
  rw [runPoll, pass_new_done l pe]

end TryForEachConcurrent

namespace TryForEachConcurrent

/-- C6: a caller-supplied limit of zero is stored exactly like no limit
(`NonZeroUsize::new(0)` is `None`), so the constructed state and every
`poll` behaviour coincide; moreover with no stored limit the pull guard is
always true, so an available item is always pulled and pushed — no
throttling ever occurs. -/
theorem claim_zero_ceiling_unbounded :
    Orch.new (some 0) = Orch.new none ∧
    (∀ (ι ε : Type) (sched : List (StreamEv ι ε × PoolEv ε)),
      runPoll sched (Orch.new (some 0)) = runPoll sched (Orch.new none)) ∧
    (∀ o : Orch, o.limit = none → launchGuard o = true) ∧
    (∀ (ι ε : Type) (o : Orch) (x : ι) (pe : PoolEv ε),
      o.limit = none → o.stream = true →
      (Ev.pulled x, o.futures) ∈ (pass o (StreamEv.item x) pe).trace ∧
      (Ev.pushed, o.futures + 1) ∈ (pass o (StreamEv.item x) pe).trace) := by
  have hnew : Orch.new (some 0) = Orch.new none := by
    simp [Orch.new, nonZeroUsizeNew, Option.bind]
  refine ⟨hnew, ?_, ?_, ?_⟩
  · intro ι ε sched
    rw [hnew]
  · intro o hl
    simp [launchGuard, hl]
  · intro ι ε o x pe hl hs
    obtain ⟨h1, h2⟩ := pass_item_unbounded o x pe hl hs
    exact ⟨h2, h1⟩

/-- C6 witness: a zero limit never throttles an available item. -/
theorem claim_zero_ceiling_unbounded_witness :
    ((⟨true, 9, none⟩ : Orch).limit = none) ∧
    (launchGuard (⟨true, 9, none⟩ : Orch) = true) ∧
    ((⟨true, 9, none⟩ : Orch).stream = true) ∧
    ((Ev.pulled 4, (9 : Nat)) ∈
        (pass (⟨true, 9, none⟩ : Orch) (StreamEv.item 4) (PoolEv.pending : PoolEv Nat)).trace ∧
      (Ev.pushed, (10 : Nat)) ∈
        (pass (⟨true, 9, none⟩ : Orch) (StreamEv.item 4) (PoolEv.pending : PoolEv Nat)).trace) :=
  ⟨by decide,
    claim_zero_ceiling_unbounded.2.2.1 ⟨true, 9, none⟩ (by decide),
    by decide,
    claim_zero_ceiling_unbounded.2.2.2 Nat Nat ⟨true, 9, none⟩ 4 PoolEv.pending
      (by decide) (by decide)⟩

/-- C7: once the stream field is `None` it never becomes `Some` again, no
item is ever pulled in any later pass, and the stream adapter is never
consulted again (`poll` no longer depends on the scheduled stream events). -/
theorem claim_source_none_permanent :
    ∀ (ι ε : Type) (sched sched2 : List (StreamEv ι ε × PoolEv ε)) (o : Orch),
      o.stream = false →
      (runPoll sched o).2.1.stream = false ∧
      (∀ tr ∈ (runPoll sched o).2.2, ∀ (x : ι) (L : Nat), (Ev.pulled x, L) ∉ tr) ∧
      (sched.map Prod.snd = sched2.map Prod.snd → runPoll sched o = runPoll sched2 o) := by
  intro ι ε sched sched2 o hs
  obtain ⟨h1, h2⟩ := runPoll_stream_false sched o hs
  exact ⟨h1, h2, fun hmap => runPoll_schedule_irrel sched sched2 o hs hmap⟩

/-- C7 witness: with the stream gone, two schedules differing only in their
stream events run identically and pull nothing. -/
theorem claim_source_none_permanent_witness :
    ((⟨false, 2, none⟩ : Orch).stream = false) ∧
    ((runPoll [((StreamEv.item 1 : StreamEv Nat Nat), PoolEv.completedOk)]
        (⟨false, 2, none⟩ : Orch)).2.1.stream = false ∧
      (∀ tr ∈ (runPoll [((StreamEv.item 1 : StreamEv Nat Nat), PoolEv.completedOk)]
          (⟨false, 2, none⟩ : Orch)).2.2, ∀ (x : Nat) (L : Nat), (Ev.pulled x, L) ∉ tr) ∧
      ([((StreamEv.item 1 : StreamEv Nat Nat), (PoolEv.completedOk : PoolEv Nat))].map Prod.snd =
          [((StreamEv.error 5 : StreamEv Nat Nat), (PoolEv.completedOk : PoolEv Nat))].map Prod.snd →
        runPoll [((StreamEv.item 1 : StreamEv Nat Nat), PoolEv.completedOk)]
            (⟨false, 2, none⟩ : Orch) =
          runPoll [((StreamEv.error 5 : StreamEv Nat Nat), PoolEv.completedOk)]
            (⟨false, 2, none⟩ : Orch))) :=
  ⟨by decide,
    claim_source_none_permanent Nat Nat
      [((StreamEv.item 1 : StreamEv Nat Nat), PoolEv.completedOk)]
      [((StreamEv.error 5 : StreamEv Nat Nat), PoolEv.completedOk)]
      ⟨false, 2, none⟩ (by decide)⟩

/-- C8 counterexample: on a fresh combinator whose stream immediately
reports exhausted (and nothing else happens), the pass records no progress,
yet `poll` returns `Ready(Ok(()))`, not `Pending` — so "returns `Pending`
exactly when no progress was recorded" is false as stated. -/
theorem claim_pending_iff_no_progress_cex :
    (pass (Orch.new none) (StreamEv.done : StreamEv Nat Nat)
        (PoolEv.pending : PoolEv Nat)).result = some PollRes.ok ∧
    (pass (Orch.new none) (StreamEv.done : StreamEv Nat Nat)
        (PoolEv.pending : PoolEv Nat)).result ≠ some PollRes.pending ∧
    progressedB (pass (Orch.new none) (StreamEv.done : StreamEv Nat Nat)
        (PoolEv.pending : PoolEv Nat)).trace = false := by
  decide

/-- C8 (amended): a pass that returns `Pending` recorded no progress, a
pass after which the loop continues recorded progress, an invocation
returning `Pending` ends with a no-progress pass preceded only by progress
passes, and a pass whose only event is the stream reporting exhausted (with
futures still pending) records no progress and returns `Pending`; but a
no-progress pass may instead return a final result (success or error), as
the counterexample shows. -/
theorem claim_pending_iff_no_progress_amended :
    (∀ (ι ε : Type) (o : Orch) (se : StreamEv ι ε) (pe : PoolEv ε),
      (pass o se pe).result = some PollRes.pending →
      progressedB (pass o se pe).trace = false) ∧
    (∀ (ι ε : Type) (o : Orch) (se : StreamEv ι ε) (pe : PoolEv ε),
      (pass o se pe).result = none → progressedB (pass o se pe).trace = true) ∧
    (∀ (ι ε : Type) (sched : List (StreamEv ι ε × PoolEv ε)) (o : Orch),
      (runPoll sched o).1 = some PollRes.pending →
      ∃ (trs0 : List (Trace ι ε)) (tr : Trace ι ε),
        (runPoll sched o).2.2 = trs0 ++ [tr] ∧ progressedB tr = false ∧
        ∀ t ∈ trs0, progressedB t = true) ∧
    (∀ (ι ε : Type) (o : Orch), o.stream = true → launchGuard o = true → 0 < o.futures →
      pass (ι := ι) (ε := ε) o StreamEv.done PoolEv.pending =
        PassRes.ret PollRes.pending { o with stream := false }
          [(Ev.streamDone, o.futures), (Ev.harvestPending, o.futures)]) :=
  ⟨fun _ _ o se pe h => pass_pending_no_progress o se pe h,
    fun _ _ o se pe h => pass_cont_progress o se pe h,
    fun _ _ sched o h => runPoll_pending_shape sched o h,
    fun _ _ o hs hg hf => pass_done_not_progress o hs hg hf⟩

/-- C8 witness: a pass in which only the stream reports exhausted, with a
future still pending, returns `Pending` without recording progress. -/
theorem claim_pending_iff_no_progress_amended_witness :
    ((⟨true, 1, none⟩ : Orch).stream = true) ∧
    (launchGuard (⟨true, 1, none⟩ : Orch) = true) ∧
    (0 < (⟨true, 1, none⟩ : Orch).futures) ∧
    pass (ι := Nat) (ε := Nat) (⟨true, 1, none⟩ : Orch) StreamEv.done PoolEv.pending =
      PassRes.ret PollRes.pending { (⟨true, 1, none⟩ : Orch) with stream := false }
        [(Ev.streamDone, (⟨true, 1, none⟩ : Orch).futures),
          (Ev.harvestPending, (⟨true, 1, none⟩ : Orch).futures)] :=
  ⟨by decide, by decide, by decide,
    claim_pending_iff_no_progress_amended.2.2.2 Nat Nat ⟨true, 1, none⟩
      (by decide) (by decide) (by decide)⟩

/-- C9: within every pass, the launch step runs before the harvest step:
every pass trace is a block of launch events followed by a block of harvest
events; in particular when a fresh item and a completion are simultaneously
ready, the new future is pushed before the completed one is removed. -/
theorem claim_launch_before_harvest :
    (∀ (ι ε : Type) (o : Orch) (se : StreamEv ι ε) (pe : PoolEv ε),
      ∃ ltr htr, (pass o se pe).trace = ltr ++ htr ∧
        (∀ p ∈ ltr, Ev.isHarvest p.1 = false) ∧
        (∀ p ∈ htr, Ev.isHarvest p.1 = true)) ∧
    (∀ (ι ε : Type) (o : Orch) (x : ι), o.stream = true → launchGuard o = true →
      pass (ε := ε) o (StreamEv.item x) PoolEv.completedOk =
        PassRes.cont o
          [(Ev.pulled x, o.futures), (Ev.pushed, o.futures + 1),
            (Ev.harvestOk, o.futures)]) :=
  ⟨fun _ _ o se pe => pass_trace_split o se pe,
    fun _ _ o x hs hg => pass_item_then_harvest o x hs hg⟩

/-- C9 witness: with one future in flight, an item and a completion ready at
once: the push lands before the completion is harvested. -/
theorem claim_launch_before_harvest_witness :
    ((⟨true, 1, some 3⟩ : Orch).stream = true) ∧
    (launchGuard (⟨true, 1, some 3⟩ : Orch) = true) ∧
    pass (ε := Nat) (⟨true, 1, some 3⟩ : Orch) (StreamEv.item 5) PoolEv.completedOk =
      PassRes.cont (⟨true, 1, some 3⟩ : Orch)
        [(Ev.pulled 5, (⟨true, 1, some 3⟩ : Orch).futures),
          (Ev.pushed, (⟨true, 1, some 3⟩ : Orch).futures + 1),
          (Ev.harvestOk, (⟨true, 1, some 3⟩ : Orch).futures)] :=
  ⟨by decide, by decide,
    claim_launch_before_harvest.2 Nat Nat ⟨true, 1, some 3⟩ 5 (by decide) (by decide)⟩

/-- C10: from the terminal state — including the one left behind by an
error return — any further `poll` invocation returns `Ready(Ok(()))` with
the state unchanged: a resume after an error-termination reports success,
not the error again. -/
theorem claim_terminal_poll_returns_ok :
    (∀ (ι ε : Type) (o : Orch) (se : StreamEv ι ε) (pe : PoolEv ε)
      (rest : List (StreamEv ι ε × PoolEv ε)),
      Orch.isTerminated o = true →
      runPoll ((se, pe) :: rest) o = (some PollRes.ok, o, [(pass o se pe).trace])) ∧
    (∀ (ι ε : Type) (sched : List (StreamEv ι ε × PoolEv ε)) (o : Orch) (el : ε)
      (se : StreamEv ι ε) (pe : PoolEv ε) (rest : List (StreamEv ι ε × PoolEv ε)),
      (runPoll sched o).1 = some (PollRes.err el) →
      runPoll ((se, pe) :: rest) (runPoll sched o).2.1 =
        (some PollRes.ok, (runPoll sched o).2.1,
          [(pass (runPoll sched o).2.1 se pe).trace])) := by
  constructor
  · intro ι ε o se pe rest h
    simp only [Orch.isTerminated, Bool.and_eq_true, Bool.not_eq_true',
      beq_iff_eq] at h
    exact runPoll_terminated o se pe rest h.1 h.2
  · intro ι ε sched o el se pe rest h
    obtain ⟨h1, h2⟩ := runPoll_err_state sched o el h
    exact runPoll_terminated _ se pe rest h1 h2

/-- C10 witness: after a unit error terminates the combinator, the next
`poll` reports success. -/
theorem claim_terminal_poll_returns_ok_witness :
    ((runPoll [((StreamEv.pending : StreamEv Nat Nat), PoolEv.completedErr 6)]
        (⟨true, 2, none⟩ : Orch)).1 = some (PollRes.err 6)) ∧
    runPoll [((StreamEv.done : StreamEv Nat Nat), PoolEv.pending)]
        (runPoll [((StreamEv.pending : StreamEv Nat Nat), PoolEv.completedErr 6)]
          (⟨true, 2, none⟩ : Orch)).2.1 =
      (some PollRes.ok,
        (runPoll [((StreamEv.pending : StreamEv Nat Nat), PoolEv.completedErr 6)]
          (⟨true, 2, none⟩ : Orch)).2.1,
        [(pass (runPoll [((StreamEv.pending : StreamEv Nat Nat), PoolEv.completedErr 6)]
            (⟨true, 2, none⟩ : Orch)).2.1
          (StreamEv.done : StreamEv Nat Nat) PoolEv.pending).trace]) :=
  ⟨by decide,
    claim_terminal_poll_returns_ok.2 Nat Nat
      [((StreamEv.pending : StreamEv Nat Nat), PoolEv.completedErr 6)]
      ⟨true, 2, none⟩ 6 (StreamEv.done : StreamEv Nat Nat) PoolEv.pending []
      (by decide)⟩

end TryForEachConcurrent
